import Mathlib

/-!
Shallow embedding of the voice-assistant agent (`src/agent.py`) and the
join-URL companion script (`src/meeting_link.py`).

The interesting logic is the egress activator inside `entrypoint`:
the `egress_started_for` set, the `on_track_published` push handler,
the `check_and_start_egress` scan, the `periodic_check` rescan loop and
the `start_track_egress` submission helper.  All run on one asyncio
event loop, so handler bodies between suspension points are atomic; we
model the system as atomic steps on an explicit state.
-/

set_option autoImplicit false

namespace Agent

/-- Media kind of a track publication, mirroring `rtc.TrackKind`. -/
inductive TrackKind where
  | audio
  | video
  | unknown
deriving DecidableEq, Repr

/-- Display name of a kind, as it appears in the log line of the push handler. -/
def TrackKind.name : TrackKind → String
  | .audio => "KIND_AUDIO"
  | .video => "KIND_VIDEO"
  | .unknown => "KIND_UNKNOWN"

/-- A track publication: `publication.sid` and `publication.kind` are the only
fields the agent reads. -/
structure Publication where
  sid : String
  kind : TrackKind
deriving DecidableEq, Repr

/-- The S3 upload target built inside `start_track_egress`
(`api.S3Upload(bucket=..., region=..., access_key=..., secret=..., force_path_style=True)`). -/
structure S3Upload where
  bucket : String
  region : String
  access_key : String
  secret : String
  force_path_style : Bool
deriving DecidableEq, Repr

/-- The file output of the egress request
(`api.DirectFileOutput(filepath=..., s3=...)`). -/
structure DirectFileOutput where
  filepath : String
  s3 : S3Upload
deriving DecidableEq, Repr

/-- The request submitted to the recording service
(`api.TrackEgressRequest(room_name=..., track_id=..., file=...)`). -/
structure TrackEgressRequest where
  room_name : String
  track_id : String
  file : DirectFileOutput
deriving DecidableEq, Repr

/-- Environment configuration read via `os.environ.get` in `start_track_egress`. -/
structure Env where
  AWS_S3_BUCKET : String
  AWS_REGION : String
  AWS_ACCESS_KEY_ID : String
  AWS_SECRET_ACCESS_KEY : String
deriving DecidableEq, Repr

/-- Construction of the `TrackEgressRequest` in `start_track_egress`, including
the f-string `f"livekit/{room}/{identity}-{sid}.ogg"` destination path. -/
def build_track_egress (env : Env) (room identity sid : String) : TrackEgressRequest :=
  { room_name := room
    track_id := sid
    file :=
      { filepath := "livekit/" ++ room ++ "/" ++ identity ++ "-" ++ sid ++ ".ogg"
        s3 :=
          { bucket := env.AWS_S3_BUCKET
            region := env.AWS_REGION
            access_key := env.AWS_ACCESS_KEY_ID
            secret := env.AWS_SECRET_ACCESS_KEY
            force_path_style := true } } }

/-- Log line emitted at the top of the try block of `start_track_egress`. -/
def startingLog (identity sid : String) : String :=
  "Starting egress for: " ++ identity ++ " - " ++ sid

/-- Log line emitted after a successful egress start. -/
def startedLog (egress_id identity : String) : String :=
  "Track egress started: " ++ egress_id ++ " for " ++ identity

/-- Log line emitted by the except-branch of `start_track_egress`. -/
def failedLog (identity err : String) : String :=
  "Failed to start track egress for " ++ identity ++ ": " ++ err

/-- The try-block of `start_track_egress`: log, build the request, await the
RPC `lkapi.egress.start_track_egress` (which may raise, modelled as
`Except.error`), log the result.  Returns the log lines emitted. -/
def start_track_egress_try (rpc : TrackEgressRequest → Except String String)
    (env : Env) (room identity sid : String) : Except String (List String) :=
  match rpc (build_track_egress env room identity sid) with
  | .ok egress_id => .ok [startingLog identity sid, startedLog egress_id identity]
  | .error e => .error e

/-- The whole of `start_track_egress`: the try-block wrapped in
`except Exception as e: logger.error(...)`.  Every exception from the RPC is
caught and turned into a log line; the function always returns normally.
(The "Starting egress" line is emitted before the RPC, so it appears in the
failure case as well.) -/
def start_track_egress (rpc : TrackEgressRequest → Except String String)
    (env : Env) (room identity sid : String) : List String :=
  match start_track_egress_try rpc env room identity sid with
  | .ok logs => logs
  | .error e => [startingLog identity sid, failedLog identity e]

/-- Session state of the egress activator: the `egress_started_for` set
(kept as a list used as a set), the submissions scheduled as asyncio tasks
whose RPC has not yet run (`pending`), the submissions whose RPC has run
(`submitted`, one entry per RPC call), and the log. -/
structure EgressState where
  activated : List String
  pending : List String
  submitted : List String
  logs : List String
deriving DecidableEq, Repr

/-- State at session start: `egress_started_for = set()`, no work done. -/
def initState : EgressState :=
  { activated := [], pending := [], submitted := [], logs := [] }

/-- Number of egress submissions (scheduled or already performed) for a
given track identifier. -/
def subCount (σ : EgressState) (s : String) : Nat :=
  σ.pending.count s + σ.submitted.count s

/-- Log line of the push handler, emitted for every event before the guard. -/
def publishedLog (identity : String) (pub : Publication) : String :=
  "Track published event: " ++ identity ++ " - " ++ pub.sid ++
    " (kind: " ++ pub.kind.name ++ ")"

/-- The `on_track_published` handler registered with
`ctx.room.on("track_published")`: log the event; if the track is audio and
its sid is not in `egress_started_for`, add the sid to the set and schedule
`start_track_egress` with `asyncio.create_task` (a pending submission).
The handler body has no await, so it runs atomically on the event loop. -/
def on_track_published (identity : String) (pub : Publication)
    (σ : EgressState) : EgressState :=
  let σ₁ := { σ with logs := σ.logs ++ [publishedLog identity pub] }
  if pub.kind = TrackKind.audio ∧ pub.sid ∉ σ₁.activated then
    { σ₁ with
      activated := pub.sid :: σ₁.activated
      pending := pub.sid :: σ₁.pending }
  else σ₁

/-- Log line of the scan when it finds a not-yet-activated audio track:
`"Found local track: {sid}"` in the local loop,
`"Found remote track: {identity} - {sid}"` in the remote loop. -/
def foundLog (isLocal : Bool) (identity sid : String) : String :=
  if isLocal then "Found local track: " ++ sid
  else "Found remote track: " ++ identity ++ " - " ++ sid

/-- One iteration of a loop of `check_and_start_egress`: if the publication
is audio and its sid is not in `egress_started_for`, log, add the sid to the
set, then `await start_track_egress(...)` — the RPC runs (one submission)
and its logs are emitted before the iteration ends. -/
def scanTrack (rpc : TrackEgressRequest → Except String String) (env : Env)
    (room : String) (isLocal : Bool) (identity : String) (pub : Publication)
    (σ : EgressState) : EgressState :=
  if pub.kind = TrackKind.audio ∧ pub.sid ∉ σ.activated then
    { σ with
      activated := pub.sid :: σ.activated
      submitted := pub.sid :: σ.submitted
      logs := σ.logs ++ [foundLog isLocal identity pub.sid] ++
        start_track_egress rpc env room identity pub.sid }
  else σ

/-- A remote participant: `participant.identity` and
`participant.track_publications` (values of the publications dict). -/
structure RemoteParticipant where
  identity : String
  track_publications : List Publication
deriving Repr

/-- The room as `check_and_start_egress` sees it: `ctx.room.name`, the local
participant (`ctx.room.local_participant`) and the remote participants
(`ctx.room.remote_participants.values()`). -/
structure Room where
  name : String
  local_identity : String
  local_track_publications : List Publication
  remote_participants : List RemoteParticipant
deriving Repr

/-- One participant loop of `check_and_start_egress`: the iteration over
`track_publications.items()` of a single participant. -/
def scanParticipant (rpc : TrackEgressRequest → Except String String)
    (env : Env) (room : String) (isLocal : Bool) (identity : String)
    (pubs : List Publication) (σ : EgressState) : EgressState :=
  pubs.foldl (fun σ pub => scanTrack rpc env room isLocal identity pub σ) σ

/-- The loop over `ctx.room.remote_participants.values()` of
`check_and_start_egress`. -/
def scanRemotes (rpc : TrackEgressRequest → Except String String)
    (env : Env) (room : String) (parts : List RemoteParticipant)
    (σ : EgressState) : EgressState :=
  parts.foldl
    (fun σ p => scanParticipant rpc env room false p.identity p.track_publications σ) σ

/-- The `check_and_start_egress` scan: the loop over the local participant's
publications followed by the nested loop over every remote participant's
publications, each iteration handled by `scanTrack`. -/
def check_and_start_egress (rpc : TrackEgressRequest → Except String String)
    (env : Env) (room : Room) (σ : EgressState) : EgressState :=
  scanRemotes rpc env room.name room.remote_participants
    (scanParticipant rpc env room.name true room.local_identity
      room.local_track_publications σ)

/-- All publications currently published in the room (local participant and
every remote participant), the tracks the scan enumerates. -/
def Room.allPublications (room : Room) : List Publication :=
  room.local_track_publications ++
    (room.remote_participants.map (·.track_publications)).flatten

/-- An atomic step of the event loop, at the granularity of the suspension
points of the agent: a delivery of the `track_published` event (the handler
body has no await), one iteration of a scan loop of `check_and_start_egress`
(the `await start_track_egress` ends the iteration's atomic section), or a
pending push-path task reaching its RPC. -/
inductive Op where
  | publish (identity : String) (pub : Publication)
  | scanItem (rpc : TrackEgressRequest → Except String String) (env : Env)
      (room : String) (isLocal : Bool) (identity : String) (pub : Publication)
  | complete (rpc : TrackEgressRequest → Except String String) (env : Env)
      (room : String) (identity : String) (sid : String)

/-- Effect of one atomic step on the session state. -/
def applyOp (σ : EgressState) (op : Op) : EgressState :=
  match op with
  | .publish identity pub => on_track_published identity pub σ
  | .scanItem rpc env room isLocal identity pub =>
      scanTrack rpc env room isLocal identity pub σ
  | .complete rpc env room identity sid =>
      if sid ∈ σ.pending then
        { σ with
          pending := σ.pending.erase sid
          submitted := sid :: σ.submitted
          logs := σ.logs ++ start_track_egress rpc env room identity sid }
      else σ

/-- Run a sequence of atomic steps from the session-start state. -/
def run (ops : List Op) : EgressState :=
  ops.foldl applyOp initState

/-- An op that activates a given track identifier as audio: a push event or a
scan iteration whose publication has that sid and kind audio. -/
def Op.isAudioFor (op : Op) (s : String) : Prop :=
  match op with
  | .publish _ pub => pub.sid = s ∧ pub.kind = TrackKind.audio
  | .scanItem _ _ _ _ _ pub => pub.sid = s ∧ pub.kind = TrackKind.audio
  | .complete _ _ _ _ _ => False

instance (op : Op) (s : String) : Decidable (op.isAudioFor s) := by
  cases op <;> simp [Op.isAudioFor] <;> infer_instance

/-- One step of the `periodic_check` loop body: `await asyncio.sleep(6)`
or `await check_and_start_egress()`. -/
inductive PCStep where
  | sleep (secs : Nat)
  | scan
deriving DecidableEq, Repr

/-- The schedule of the `periodic_check` task:
`for _ in range(20): await asyncio.sleep(6); await check_and_start_egress()`,
unfolded into the finite list of the awaits it performs, in order. -/
def periodic_check_steps : Nat → List PCStep
  | 0 => []
  | n + 1 => PCStep.sleep 6 :: PCStep.scan :: periodic_check_steps n

/-- The full schedule of `periodic_check` (bound `range(20)`). -/
def periodic_check : List PCStep :=
  periodic_check_steps 20

/-- The fixed string returned by the `getForecast` tool for every location. -/
def getForecast (location : String) : String :=
  "cold with a temperature of 30 degrees."

/-- An HTTP response as `httpx` hands it back: status code and body. -/
structure HttpResponse where
  status_code : Nat
  body : String
deriving DecidableEq, Repr

/-- Success test of `httpx.Response`: a 2xx status code. -/
def HttpResponse.is_success (r : HttpResponse) : Bool :=
  decide (200 ≤ r.status_code ∧ r.status_code < 300)

/-- Model of `response.raise_for_status()`: returns the response unchanged on
a success status and raises `HTTPStatusError` otherwise. -/
def raise_for_status (r : HttpResponse) : Except String HttpResponse :=
  if r.is_success then .ok r
  else .error ("HTTPStatusError: " ++ toString r.status_code)

/-- The URL built by `getCurrentWeather`: `f"https://wttr.in/{location}?format=j1"`. -/
def weatherUrl (location : String) : String :=
  "https://wttr.in/" ++ location ++ "?format=j1"

/-- The `getCurrentWeather` tool: GET the weather URL (the transport is the
`get` parameter), `raise_for_status`, then `response.json()` (the JSON
decoder is the `parse` parameter; it may itself raise on a malformed body).
Unlike the egress path there is no try-except: errors propagate. -/
def getCurrentWeather {J : Type} (get : String → HttpResponse)
    (parse : String → Except String J) (location : String) : Except String J :=
  let response := get (weatherUrl location)
  match raise_for_status response with
  | .ok response => parse response.body
  | .error e => .error e

end Agent

namespace MeetingLink

/-- The grant object `api.VideoGrants(room_join=True, room="local-room")`. -/
structure VideoGrants where
  room_join : Bool
  room : String
deriving DecidableEq, Repr

/-- The token builder `api.AccessToken(...)` with the fields the script sets. -/
structure AccessToken where
  api_key : String
  api_secret : String
  identity : Option String
  grants : Option VideoGrants
deriving DecidableEq, Repr

/-- The constructor call `api.AccessToken(api_key=..., api_secret=...)`:
no identity and no grants yet. -/
def newAccessToken (api_key api_secret : String) : AccessToken :=
  { api_key := api_key, api_secret := api_secret, identity := none, grants := none }

/-- Builder method `with_identity`. -/
def AccessToken.with_identity (t : AccessToken) (id : String) : AccessToken :=
  { t with identity := some id }

/-- Builder method `with_grants`. -/
def AccessToken.with_grants (t : AccessToken) (g : VideoGrants) : AccessToken :=
  { t with grants := some g }

/-- Whether a grant permits joining a given room: the join flag is set and
the room restriction names that room. -/
def VideoGrants.permitsJoin (g : VideoGrants) (room : String) : Prop :=
  g.room_join = true ∧ g.room = room

instance (g : VideoGrants) (room : String) : Decidable (g.permitsJoin room) := by
  unfold VideoGrants.permitsJoin; infer_instance

/-- The token built by `meeting_link.py` from the two environment inputs:
`AccessToken(api_key, api_secret).with_identity("human-user")`
`.with_grants(VideoGrants(room_join=True, room="local-room"))`. -/
def human_token (api_key api_secret : String) : AccessToken :=
  ((newAccessToken api_key api_secret).with_identity "human-user").with_grants
    { room_join := true, room := "local-room" }

/-- The URL the script prints, with the serialized token appended
(`to_jwt` is the external signer, modelled as a parameter). -/
def meet_url (to_jwt : AccessToken → String) (api_key api_secret : String) : String :=
  "https://meet.livekit.io/custom?liveKitUrl=http://localhost:7880&token=" ++
    to_jwt (human_token api_key api_secret)

end MeetingLink

namespace Agent

/-! ### Counting invariant of the egress activator -/

/-- Counting invariant: a track identifier has exactly one submission
(scheduled or already performed) when it is in `egress_started_for`, and
none otherwise. -/
def coreInv (σ : EgressState) : Prop :=
  ∀ s, subCount σ s = if s ∈ σ.activated then 1 else 0

theorem coreInv_initState : coreInv initState := by
  intro s
  simp [subCount, initState]

theorem coreInv_applyOp {σ : EgressState} (op : Op) (h : coreInv σ) :
    coreInv (applyOp σ op) := by
  cases op with
  | publish identity pub =>
      intro s
      simp only [applyOp, on_track_published, subCount]
      split
      · next hg =>
          dsimp only
          by_cases hs : s = pub.sid
          · subst hs
            have h0 := h pub.sid
            rw [if_neg hg.2] at h0
            simp only [subCount] at h0
            rw [List.count_cons_self, if_pos (List.mem_cons_self _ _)]
            omega
          · rw [List.count_cons_of_ne hs]
            have h0 := h s
            simp only [subCount] at h0
            simpa [List.mem_cons, hs] using h0
      · exact h s
  | scanItem rpc env room isLocal identity pub =>
      intro s
      simp only [applyOp, scanTrack, subCount]
      split
      · next hg =>
          dsimp only
          by_cases hs : s = pub.sid
          · subst hs
            have h0 := h pub.sid
            rw [if_neg hg.2] at h0
            simp only [subCount] at h0
            rw [List.count_cons_self, if_pos (List.mem_cons_self _ _)]
            omega
          · rw [List.count_cons_of_ne hs]
            have h0 := h s
            simp only [subCount] at h0
            simpa [List.mem_cons, hs] using h0
      · exact h s
  | complete rpc env room identity sid =>
      intro s
      simp only [applyOp, subCount]
      split
      · next hmem =>
          dsimp only
          by_cases hs : s = sid
          · subst hs
            rw [List.count_cons_self, List.count_erase_self]
            have hpos : 0 < σ.pending.count s := List.count_pos_iff.mpr hmem
            have hinv := h s
            simp only [subCount] at hinv
            by_cases hact : s ∈ σ.activated
            · rw [if_pos hact] at hinv ⊢
              omega
            · rw [if_neg hact] at hinv ⊢
              omega
          · rw [List.count_erase_of_ne hs, List.count_cons_of_ne hs]
            exact h s
      · exact h s

theorem coreInv_foldl {ops : List Op} {σ : EgressState} (h : coreInv σ) :
    coreInv (ops.foldl applyOp σ) := by
  induction ops generalizing σ with
  | nil => exact h
  | cons op ops ih => exact ih (coreInv_applyOp op h)

theorem coreInv_run (ops : List Op) : coreInv (run ops) :=
  coreInv_foldl coreInv_initState

/-! ### Monotonicity of the activated-set under atomic steps -/

theorem applyOp_activated_mono {σ : EgressState} (op : Op) {s : String}
    (h : s ∈ σ.activated) : s ∈ (applyOp σ op).activated := by
  cases op with
  | publish identity pub =>
      simp only [applyOp, on_track_published]
      split
      · exact List.mem_cons_of_mem _ h
      · exact h
  | scanItem rpc env room isLocal identity pub =>
      simp only [applyOp, scanTrack]
      split
      · exact List.mem_cons_of_mem _ h
      · exact h
  | complete rpc env room identity sid =>
      simp only [applyOp]
      split
      · exact h
      · exact h

theorem applyOp_mem_activated_of_isAudioFor {op : Op} {s : String}
    (h : op.isAudioFor s) (σ : EgressState) : s ∈ (applyOp σ op).activated := by
  cases op with
  | publish identity pub =>
      simp only [Op.isAudioFor] at h
      obtain ⟨rfl, hk⟩ := h
      simp only [applyOp, on_track_published]
      split
      · exact List.mem_cons_self _ _
      · next hg =>
          rw [not_and_or, not_not] at hg
          exact hg.resolve_left (fun hc => hc hk)
  | scanItem rpc env room isLocal identity pub =>
      simp only [Op.isAudioFor] at h
      obtain ⟨rfl, hk⟩ := h
      simp only [applyOp, scanTrack]
      split
      · exact List.mem_cons_self _ _
      · next hg =>
          rw [not_and_or, not_not] at hg
          exact hg.resolve_left (fun hc => hc hk)
  | complete rpc env room identity sid =>
      simp only [Op.isAudioFor] at h

theorem foldl_mem_of_isAudioFor {ops : List Op} {s : String} (σ : EgressState)
    (h : (∃ op ∈ ops, op.isAudioFor s) ∨ s ∈ σ.activated) :
    s ∈ (ops.foldl applyOp σ).activated := by
  induction ops generalizing σ with
  | nil =>
      rcases h with ⟨op, hop, _⟩ | h
      · exact absurd hop (List.not_mem_nil _)
      · exact h
  | cons op ops ih =>
      rcases h with ⟨op', hop', haud⟩ | h
      · rcases List.mem_cons.mp hop' with rfl | hop'
        · exact ih _ (Or.inr (applyOp_mem_activated_of_isAudioFor haud σ))
        · exact ih _ (Or.inl ⟨op', hop', haud⟩)
      · exact ih _ (Or.inr (applyOp_activated_mono op h))

theorem run_mem_of_isAudioFor {ops : List Op} {s : String}
    (h : ∃ op ∈ ops, op.isAudioFor s) : s ∈ (run ops).activated :=
  foldl_mem_of_isAudioFor initState (Or.inl h)

theorem applyOp_not_activated {σ : EgressState} {op : Op} {s : String}
    (hop : ¬ op.isAudioFor s) (h : s ∉ σ.activated) :
    s ∉ (applyOp σ op).activated := by
  cases op with
  | publish identity pub =>
      simp only [Op.isAudioFor] at hop
      simp only [applyOp, on_track_published]
      split
      · next hg =>
          intro hmem
          rcases List.mem_cons.mp hmem with rfl | hmem
          · exact hop ⟨rfl, hg.1⟩
          · exact h hmem
      · exact h
  | scanItem rpc env room isLocal identity pub =>
      simp only [Op.isAudioFor] at hop
      simp only [applyOp, scanTrack]
      split
      · next hg =>
          intro hmem
          rcases List.mem_cons.mp hmem with rfl | hmem
          · exact hop ⟨rfl, hg.1⟩
          · exact h hmem
      · exact h
  | complete rpc env room identity sid =>
      simp only [applyOp]
      split
      · exact h
      · exact h

theorem foldl_not_activated {ops : List Op} {s : String} {σ : EgressState}
    (hops : ∀ op ∈ ops, ¬ op.isAudioFor s) (h : s ∉ σ.activated) :
    s ∉ (ops.foldl applyOp σ).activated := by
  induction ops generalizing σ with
  | nil => exact h
  | cons op ops ih =>
      exact ih (fun o ho => hops o (List.mem_cons_of_mem _ ho))
        (applyOp_not_activated (hops op (List.mem_cons_self _ _)) h)

end Agent

namespace Agent

/-! ### Lemmas about the scan -/

/-- Relation between a scan's start state and a later state: every track that
was activated after the start was also submitted (the scan path activates and
submits in the same atomic section). -/
def newActivatedSubmitted (σ₀ σ : EgressState) : Prop :=
  ∀ s, s ∉ σ₀.activated → s ∈ σ.activated → s ∈ σ.submitted

/-- Agreement of two states on everything except the log. -/
def eqCore (σ₁ σ₂ : EgressState) : Prop :=
  σ₁.activated = σ₂.activated ∧ σ₁.pending = σ₂.pending ∧
    σ₁.submitted = σ₂.submitted

theorem scanTrack_activated_mono
    (rpc : TrackEgressRequest → Except String String) (env : Env)
    (room : String) (isLocal : Bool) (identity : String) (pub : Publication)
    {σ : EgressState} {s : String} (h : s ∈ σ.activated) :
    s ∈ (scanTrack rpc env room isLocal identity pub σ).activated := by
  simp only [scanTrack]
  split
  · exact List.mem_cons_of_mem _ h
  · exact h

theorem scanTrack_submitted_mono
    (rpc : TrackEgressRequest → Except String String) (env : Env)
    (room : String) (isLocal : Bool) (identity : String) (pub : Publication)
    {σ : EgressState} {s : String} (h : s ∈ σ.submitted) :
    s ∈ (scanTrack rpc env room isLocal identity pub σ).submitted := by
  simp only [scanTrack]
  split
  · exact List.mem_cons_of_mem _ h
  · exact h

theorem scanTrack_pending_eq
    (rpc : TrackEgressRequest → Except String String) (env : Env)
    (room : String) (isLocal : Bool) (identity : String) (pub : Publication)
    (σ : EgressState) :
    (scanTrack rpc env room isLocal identity pub σ).pending = σ.pending := by
  simp only [scanTrack]
  split <;> rfl

theorem scanTrack_mem_self
    (rpc : TrackEgressRequest → Except String String) (env : Env)
    (room : String) (isLocal : Bool) (identity : String) {pub : Publication}
    (σ : EgressState) (hk : pub.kind = TrackKind.audio) :
    pub.sid ∈ (scanTrack rpc env room isLocal identity pub σ).activated := by
  simp only [scanTrack]
  split
  · exact List.mem_cons_self _ _
  · next hg =>
      rw [not_and_or, not_not] at hg
      exact hg.resolve_left (fun hc => hc hk)

theorem scanTrack_newSub
    (rpc : TrackEgressRequest → Except String String) (env : Env)
    (room : String) (isLocal : Bool) (identity : String) (pub : Publication)
    {σ₀ σ : EgressState} (h : newActivatedSubmitted σ₀ σ) :
    newActivatedSubmitted σ₀ (scanTrack rpc env room isLocal identity pub σ) := by
  simp only [scanTrack]
  split
  · next hg =>
      intro s hs0 hs
      rcases List.mem_cons.mp hs with rfl | hs
      · exact List.mem_cons_self _ _
      · exact List.mem_cons_of_mem _ (h s hs0 hs)
  · exact h

theorem scanTrack_count_eq
    (rpc : TrackEgressRequest → Except String String) (env : Env)
    (room : String) (isLocal : Bool) (identity : String) (pub : Publication)
    {σ : EgressState} {s : String} (h : s ∈ σ.activated) :
    (scanTrack rpc env room isLocal identity pub σ).submitted.count s =
      σ.submitted.count s := by
  simp only [scanTrack]
  split
  · next hg =>
      dsimp only
      exact List.count_cons_of_ne (fun hc => hg.2 (by rw [← hc]; exact h)) _
  · rfl

theorem scanTrack_core_congr
    (rpc₁ rpc₂ : TrackEgressRequest → Except String String) (env : Env)
    (room : String) (isLocal : Bool) (identity : String) (pub : Publication)
    {σ₁ σ₂ : EgressState} (h : eqCore σ₁ σ₂) :
    eqCore (scanTrack rpc₁ env room isLocal identity pub σ₁)
      (scanTrack rpc₂ env room isLocal identity pub σ₂) := by
  obtain ⟨ha, hp, hsub⟩ := h
  by_cases hg : pub.kind = TrackKind.audio ∧ pub.sid ∉ σ₂.activated
  · have hg₁ : pub.kind = TrackKind.audio ∧ pub.sid ∉ σ₁.activated := by
      rw [ha]; exact hg
    simp only [scanTrack, if_pos hg, if_pos hg₁, eqCore]
    exact ⟨by rw [ha], hp, by rw [hsub]⟩
  · have hg₁ : ¬(pub.kind = TrackKind.audio ∧ pub.sid ∉ σ₁.activated) := by
      rw [ha]; exact hg
    simp only [scanTrack, if_neg hg, if_neg hg₁, eqCore]
    exact ⟨ha, hp, hsub⟩

theorem scanParticipant_cons
    (rpc : TrackEgressRequest → Except String String) (env : Env)
    (room : String) (isLocal : Bool) (identity : String)
    (pub : Publication) (pubs : List Publication) (σ : EgressState) :
    scanParticipant rpc env room isLocal identity (pub :: pubs) σ =
      scanParticipant rpc env room isLocal identity pubs
        (scanTrack rpc env room isLocal identity pub σ) := rfl

theorem scanRemotes_cons
    (rpc : TrackEgressRequest → Except String String) (env : Env)
    (room : String) (p : RemoteParticipant) (parts : List RemoteParticipant)
    (σ : EgressState) :
    scanRemotes rpc env room (p :: parts) σ =
      scanRemotes rpc env room parts
        (scanParticipant rpc env room false p.identity p.track_publications σ) := rfl

theorem scanParticipant_activated_mono
    (rpc : TrackEgressRequest → Except String String) (env : Env)
    (room : String) (isLocal : Bool) (identity : String)
    {pubs : List Publication} {σ : EgressState} {s : String}
    (h : s ∈ σ.activated) :
    s ∈ (scanParticipant rpc env room isLocal identity pubs σ).activated := by
  induction pubs generalizing σ with
  | nil => exact h
  | cons pub pubs ih =>
      exact ih (scanTrack_activated_mono rpc env room isLocal identity pub h)

theorem scanParticipant_submitted_mono
    (rpc : TrackEgressRequest → Except String String) (env : Env)
    (room : String) (isLocal : Bool) (identity : String)
    {pubs : List Publication} {σ : EgressState} {s : String}
    (h : s ∈ σ.submitted) :
    s ∈ (scanParticipant rpc env room isLocal identity pubs σ).submitted := by
  induction pubs generalizing σ with
  | nil => exact h
  | cons pub pubs ih =>
      exact ih (scanTrack_submitted_mono rpc env room isLocal identity pub h)

theorem scanParticipant_pending_eq
    (rpc : TrackEgressRequest → Except String String) (env : Env)
    (room : String) (isLocal : Bool) (identity : String)
    (pubs : List Publication) (σ : EgressState) :
    (scanParticipant rpc env room isLocal identity pubs σ).pending = σ.pending := by
  induction pubs generalizing σ with
  | nil => rfl
  | cons pub pubs ih =>
      exact (ih _).trans (scanTrack_pending_eq rpc env room isLocal identity pub σ)

theorem scanParticipant_mem_of_mem
    (rpc : TrackEgressRequest → Except String String) (env : Env)
    (room : String) (isLocal : Bool) (identity : String)
    {pubs : List Publication} {pub : Publication} (σ : EgressState)
    (hmem : pub ∈ pubs) (hk : pub.kind = TrackKind.audio) :
    pub.sid ∈ (scanParticipant rpc env room isLocal identity pubs σ).activated := by
  induction pubs generalizing σ with
  | nil => exact absurd hmem (List.not_mem_nil _)
  | cons pub₀ pubs ih =>
      rcases List.mem_cons.mp hmem with rfl | hmem
      · rw [scanParticipant_cons]
        exact scanParticipant_activated_mono rpc env room isLocal identity
          (scanTrack_mem_self rpc env room isLocal identity σ hk)
      · exact ih _ hmem

theorem scanParticipant_newSub
    (rpc : TrackEgressRequest → Except String String) (env : Env)
    (room : String) (isLocal : Bool) (identity : String)
    {pubs : List Publication} {σ₀ σ : EgressState}
    (h : newActivatedSubmitted σ₀ σ) :
    newActivatedSubmitted σ₀
      (scanParticipant rpc env room isLocal identity pubs σ) := by
  induction pubs generalizing σ with
  | nil => exact h
  | cons pub pubs ih =>
      exact ih (scanTrack_newSub rpc env room isLocal identity pub h)

theorem scanParticipant_count_eq
    (rpc : TrackEgressRequest → Except String String) (env : Env)
    (room : String) (isLocal : Bool) (identity : String)
    {pubs : List Publication} {σ : EgressState} {s : String}
    (h : s ∈ σ.activated) :
    (scanParticipant rpc env room isLocal identity pubs σ).submitted.count s =
      σ.submitted.count s := by
  induction pubs generalizing σ with
  | nil => rfl
  | cons pub pubs ih =>
      exact (ih (scanTrack_activated_mono rpc env room isLocal identity pub h)).trans
        (scanTrack_count_eq rpc env room isLocal identity pub h)

theorem scanParticipant_core_congr
    (rpc₁ rpc₂ : TrackEgressRequest → Except String String) (env : Env)
    (room : String) (isLocal : Bool) (identity : String)
    {pubs : List Publication} {σ₁ σ₂ : EgressState} (h : eqCore σ₁ σ₂) :
    eqCore (scanParticipant rpc₁ env room isLocal identity pubs σ₁)
      (scanParticipant rpc₂ env room isLocal identity pubs σ₂) := by
  induction pubs generalizing σ₁ σ₂ with
  | nil => exact h
  | cons pub pubs ih =>
      exact ih (scanTrack_core_congr rpc₁ rpc₂ env room isLocal identity pub h)

theorem scanRemotes_activated_mono
    (rpc : TrackEgressRequest → Except String String) (env : Env)
    (room : String) {parts : List RemoteParticipant} {σ : EgressState}
    {s : String} (h : s ∈ σ.activated) :
    s ∈ (scanRemotes rpc env room parts σ).activated := by
  induction parts generalizing σ with
  | nil => exact h
  | cons p parts ih =>
      exact ih (scanParticipant_activated_mono rpc env room false p.identity h)

theorem scanRemotes_submitted_mono
    (rpc : TrackEgressRequest → Except String String) (env : Env)
    (room : String) {parts : List RemoteParticipant} {σ : EgressState}
    {s : String} (h : s ∈ σ.submitted) :
    s ∈ (scanRemotes rpc env room parts σ).submitted := by
  induction parts generalizing σ with
  | nil => exact h
  | cons p parts ih =>
      exact ih (scanParticipant_submitted_mono rpc env room false p.identity h)

theorem scanRemotes_pending_eq
    (rpc : TrackEgressRequest → Except String String) (env : Env)
    (room : String) (parts : List RemoteParticipant) (σ : EgressState) :
    (scanRemotes rpc env room parts σ).pending = σ.pending := by
  induction parts generalizing σ with
  | nil => rfl
  | cons p parts ih =>
      exact (ih _).trans (scanParticipant_pending_eq rpc env room false p.identity _ σ)

theorem scanRemotes_mem_of_mem
    (rpc : TrackEgressRequest → Except String String) (env : Env)
    (room : String) {parts : List RemoteParticipant} {p : RemoteParticipant}
    {pub : Publication} (σ : EgressState) (hp : p ∈ parts)
    (hmem : pub ∈ p.track_publications) (hk : pub.kind = TrackKind.audio) :
    pub.sid ∈ (scanRemotes rpc env room parts σ).activated := by
  induction parts generalizing σ with
  | nil => exact absurd hp (List.not_mem_nil _)
  | cons p₀ parts ih =>
      rcases List.mem_cons.mp hp with rfl | hp
      · rw [scanRemotes_cons]
        exact scanRemotes_activated_mono rpc env room
          (scanParticipant_mem_of_mem rpc env room false p.identity σ hmem hk)
      · exact ih _ hp

theorem scanRemotes_newSub
    (rpc : TrackEgressRequest → Except String String) (env : Env)
    (room : String) {parts : List RemoteParticipant} {σ₀ σ : EgressState}
    (h : newActivatedSubmitted σ₀ σ) :
    newActivatedSubmitted σ₀ (scanRemotes rpc env room parts σ) := by
  induction parts generalizing σ with
  | nil => exact h
  | cons p parts ih =>
      exact ih (scanParticipant_newSub rpc env room false p.identity h)

theorem scanRemotes_count_eq
    (rpc : TrackEgressRequest → Except String String) (env : Env)
    (room : String) {parts : List RemoteParticipant} {σ : EgressState}
    {s : String} (h : s ∈ σ.activated) :
    (scanRemotes rpc env room parts σ).submitted.count s =
      σ.submitted.count s := by
  induction parts generalizing σ with
  | nil => rfl
  | cons p parts ih =>
      exact (ih (scanParticipant_activated_mono rpc env room false p.identity h)).trans
        (scanParticipant_count_eq rpc env room false p.identity h)

theorem scanRemotes_core_congr
    (rpc₁ rpc₂ : TrackEgressRequest → Except String String) (env : Env)
    (room : String) {parts : List RemoteParticipant} {σ₁ σ₂ : EgressState}
    (h : eqCore σ₁ σ₂) :
    eqCore (scanRemotes rpc₁ env room parts σ₁)
      (scanRemotes rpc₂ env room parts σ₂) := by
  induction parts generalizing σ₁ σ₂ with
  | nil => exact h
  | cons p parts ih =>
      exact ih (scanParticipant_core_congr rpc₁ rpc₂ env room false p.identity h)

theorem check_and_start_egress_activated_mono
    (rpc : TrackEgressRequest → Except String String) (env : Env)
    (room : Room) {σ : EgressState} {s : String} (h : s ∈ σ.activated) :
    s ∈ (check_and_start_egress rpc env room σ).activated :=
  scanRemotes_activated_mono rpc env room.name
    (scanParticipant_activated_mono rpc env room.name true room.local_identity h)

theorem mem_allPublications {room : Room} {pub : Publication} :
    pub ∈ room.allPublications ↔
      pub ∈ room.local_track_publications ∨
        ∃ p ∈ room.remote_participants, pub ∈ p.track_publications := by
  simp only [Room.allPublications, List.mem_append, List.mem_flatten,
    List.mem_map]
  constructor
  · rintro (h | ⟨l, ⟨p, hp, rfl⟩, hl⟩)
    · exact Or.inl h
    · exact Or.inr ⟨p, hp, hl⟩
  · rintro (h | ⟨p, hp, hl⟩)
    · exact Or.inl h
    · exact Or.inr ⟨p.track_publications, ⟨p, hp, rfl⟩, hl⟩

end Agent

namespace Agent

/-! ## Claim theorems -/

/-- C1: over every interleaving (at suspension points) of push events, scan
iterations and submission-task completions from session start, each track
identifier receives at most one egress submission, and each identifier that
is published as audio (by either path) receives exactly one: the synchronous
check-then-insert into `egress_started_for` makes a second submission
impossible. -/
theorem track_submitted_exactly_once (ops : List Op) (s : String) :
    subCount (run ops) s ≤ 1 ∧
      ((∃ op ∈ ops, op.isAudioFor s) → subCount (run ops) s = 1) := by
  have hinv := coreInv_run ops s
  constructor
  · rw [hinv]
    split <;> omega
  · intro hex
    rw [hinv, if_pos (run_mem_of_isAudioFor hex)]

/-- Witness for C1: a duplicated push event, a racing scan iteration and a
task completion for the same audio track still yield exactly one submission. -/
theorem track_submitted_exactly_once_witness :
    subCount (run
      [Op.publish "alice" { sid := "TR_1", kind := TrackKind.audio },
       Op.publish "alice" { sid := "TR_1", kind := TrackKind.audio },
       Op.scanItem (fun _ => Except.ok "EG_1")
         { AWS_S3_BUCKET := "b", AWS_REGION := "r", AWS_ACCESS_KEY_ID := "k",
           AWS_SECRET_ACCESS_KEY := "x" } "room" false "alice"
         { sid := "TR_1", kind := TrackKind.audio },
       Op.complete (fun _ => Except.ok "EG_1")
         { AWS_S3_BUCKET := "b", AWS_REGION := "r", AWS_ACCESS_KEY_ID := "k",
           AWS_SECRET_ACCESS_KEY := "x" } "room" "alice" "TR_1"]) "TR_1" = 1 :=
  (track_submitted_exactly_once _ "TR_1").2
    ⟨Op.publish "alice" { sid := "TR_1", kind := TrackKind.audio },
     List.mem_cons_self _ _, rfl, rfl⟩

/-- C6: a track identifier that is never published with media kind audio is
never added to the activated-set and never receives an egress submission,
whatever the push handler and the scan do with other tracks. -/
theorem non_audio_never_triggers (ops : List Op) (s : String)
    (h : ∀ op ∈ ops, ¬ op.isAudioFor s) :
    s ∉ (run ops).activated ∧ subCount (run ops) s = 0 := by
  have hna : s ∉ (run ops).activated :=
    foldl_not_activated h (by simp [initState])
  refine ⟨hna, ?_⟩
  rw [coreInv_run ops s, if_neg hna]

/-- Witness for C6: after an audio publication R1 followed by a video
publication V1, the video track is unactivated with zero submissions. -/
theorem non_audio_never_triggers_witness :
    "V1" ∉ (run [Op.publish "bob" { sid := "R1", kind := TrackKind.audio },
                 Op.publish "bob" { sid := "V1", kind := TrackKind.video }]).activated ∧
      subCount (run [Op.publish "bob" { sid := "R1", kind := TrackKind.audio },
                     Op.publish "bob" { sid := "V1", kind := TrackKind.video }]) "V1" = 0 :=
  non_audio_never_triggers _ "V1" (by decide)

/-- C7: the activated-set starts empty at session start and no atomic step of
the push handler, the scan or a completing submission task ever removes an
element; a whole scan run also only grows it. -/
theorem activated_set_monotone :
    initState.activated = [] ∧
    (∀ (σ : EgressState) (op : Op) (s : String),
        s ∈ σ.activated → s ∈ (applyOp σ op).activated) ∧
    (∀ (rpc : TrackEgressRequest → Except String String) (env : Env)
        (room : Room) (σ : EgressState) (s : String),
        s ∈ σ.activated → s ∈ (check_and_start_egress rpc env room σ).activated) :=
  ⟨rfl,
   fun _ op _ h => applyOp_activated_mono op h,
   fun rpc env room _ _ h => check_and_start_egress_activated_mono rpc env room h⟩

/-- Witness for C7: an already-activated identifier survives a push event and
a full scan at concrete inputs. -/
theorem activated_set_monotone_witness :
    "T1" ∈ (applyOp { activated := ["T1"], pending := [], submitted := ["T1"], logs := [] }
        (Op.publish "bob" { sid := "T2", kind := TrackKind.audio })).activated ∧
    "T1" ∈ (check_and_start_egress (fun _ => Except.ok "EG")
        { AWS_S3_BUCKET := "b", AWS_REGION := "r", AWS_ACCESS_KEY_ID := "k",
          AWS_SECRET_ACCESS_KEY := "x" }
        { name := "room", local_identity := "agent",
          local_track_publications := [{ sid := "T2", kind := TrackKind.audio }],
          remote_participants := [] }
        { activated := ["T1"], pending := [], submitted := ["T1"], logs := [] }).activated :=
  ⟨activated_set_monotone.2.1 _ _ _ (List.mem_cons_self _ _),
   activated_set_monotone.2.2 _ _ _ _ _ (List.mem_cons_self _ _)⟩

/-- C4: after one run of `check_and_start_egress`, every audio track
currently published by the local participant or any remote participant is in
the activated-set; every such track not already activated before the run has
had a submission within the run; and a track already activated before the
run is not resubmitted (its submission count is unchanged). -/
theorem scan_run_complete
    (rpc : TrackEgressRequest → Except String String) (env : Env)
    (room : Room) (σ : EgressState) :
    (∀ pub ∈ room.allPublications, pub.kind = TrackKind.audio →
        pub.sid ∈ (check_and_start_egress rpc env room σ).activated) ∧
    (∀ pub ∈ room.allPublications, pub.kind = TrackKind.audio →
        pub.sid ∉ σ.activated →
        pub.sid ∈ (check_and_start_egress rpc env room σ).submitted) ∧
    (∀ s ∈ σ.activated,
        (check_and_start_egress rpc env room σ).submitted.count s =
          σ.submitted.count s) := by
  have hmemAll : ∀ pub ∈ room.allPublications, pub.kind = TrackKind.audio →
      pub.sid ∈ (check_and_start_egress rpc env room σ).activated := by
    intro pub hmem hk
    simp only [check_and_start_egress]
    rcases mem_allPublications.mp hmem with hl | ⟨p, hp, hl⟩
    · exact scanRemotes_activated_mono rpc env room.name
        (scanParticipant_mem_of_mem rpc env room.name true room.local_identity σ hl hk)
    · exact scanRemotes_mem_of_mem rpc env room.name _ hp hl hk
  have hnew : newActivatedSubmitted σ (check_and_start_egress rpc env room σ) := by
    simp only [check_and_start_egress]
    exact scanRemotes_newSub rpc env room.name
      (scanParticipant_newSub rpc env room.name true room.local_identity
        (fun s h0 h1 => absurd h1 h0))
  refine ⟨hmemAll, fun pub hmem hk h0 => hnew pub.sid h0 (hmemAll pub hmem hk), ?_⟩
  intro s hs
  simp only [check_and_start_egress]
  exact (scanRemotes_count_eq rpc env room.name
      (scanParticipant_activated_mono rpc env room.name true room.local_identity hs)).trans
    (scanParticipant_count_eq rpc env room.name true room.local_identity hs)

/-- Witness for C4: in a room with a local audio track L1 and a remote
participant holding audio R1 and video V1, one scan from the empty state
submits R1. -/
theorem scan_run_complete_witness :
    "R1" ∈ (check_and_start_egress (fun _ => Except.ok "EG")
      { AWS_S3_BUCKET := "b", AWS_REGION := "r", AWS_ACCESS_KEY_ID := "k",
        AWS_SECRET_ACCESS_KEY := "x" }
      { name := "room", local_identity := "agent",
        local_track_publications := [{ sid := "L1", kind := TrackKind.audio }],
        remote_participants :=
          [{ identity := "bob",
             track_publications := [{ sid := "R1", kind := TrackKind.audio },
                                    { sid := "V1", kind := TrackKind.video }] }] }
      initState).submitted :=
  (scan_run_complete _ _ _ _).2.1
    { sid := "R1", kind := TrackKind.audio } (by decide) rfl (by decide)

/-- C5: an egress submission failure is logged and swallowed: when the RPC
raises, `start_track_egress` still returns normally with exactly the starting
log and the failure log; which RPCs fail has no effect on the activated-set,
the pending tasks or the submission attempts produced by a scan (so one
failure blocks no other track); and an activated track stays activated
through any scan (no retry path removes it). -/
theorem egress_failure_logged_and_swallowed
    (rpc rpc₁ rpc₂ : TrackEgressRequest → Except String String) (env : Env)
    (roomName identity sid e : String) (room : Room) (σ : EgressState)
    (s : String) :
    (rpc (build_track_egress env roomName identity sid) = Except.error e →
        start_track_egress rpc env roomName identity sid =
          [startingLog identity sid, failedLog identity e]) ∧
    (check_and_start_egress rpc₁ env room σ).activated =
      (check_and_start_egress rpc₂ env room σ).activated ∧
    (check_and_start_egress rpc₁ env room σ).pending =
      (check_and_start_egress rpc₂ env room σ).pending ∧
    (check_and_start_egress rpc₁ env room σ).submitted =
      (check_and_start_egress rpc₂ env room σ).submitted ∧
    (s ∈ σ.activated → s ∈ (check_and_start_egress rpc₁ env room σ).activated) := by
  have hcore : eqCore (check_and_start_egress rpc₁ env room σ)
      (check_and_start_egress rpc₂ env room σ) := by
    simp only [check_and_start_egress]
    exact scanRemotes_core_congr rpc₁ rpc₂ env room.name
      (scanParticipant_core_congr rpc₁ rpc₂ env room.name true room.local_identity
        ⟨rfl, rfl, rfl⟩)
  refine ⟨?_, hcore.1, hcore.2.1, hcore.2.2,
    fun h => check_and_start_egress_activated_mono rpc₁ env room h⟩
  intro herr
  simp only [start_track_egress, start_track_egress_try, herr]

/-- Witness for C5: a failing RPC at concrete inputs returns the two log
lines and raises nothing. -/
theorem egress_failure_logged_and_swallowed_witness :
    start_track_egress (fun _ => Except.error "boom")
      { AWS_S3_BUCKET := "b", AWS_REGION := "r", AWS_ACCESS_KEY_ID := "k",
        AWS_SECRET_ACCESS_KEY := "x" } "room" "alice" "T1" =
      [startingLog "alice" "T1", failedLog "alice" "boom"] :=
  (egress_failure_logged_and_swallowed (fun _ => Except.error "boom")
    (fun _ => Except.error "boom") (fun _ => Except.ok "EG")
    { AWS_S3_BUCKET := "b", AWS_REGION := "r", AWS_ACCESS_KEY_ID := "k",
      AWS_SECRET_ACCESS_KEY := "x" } "room" "alice" "T1" "boom"
    { name := "room", local_identity := "agent",
      local_track_publications := [], remote_participants := [] }
    initState "T1").1 rfl

/-- C3: the `periodic_check` task performs exactly 20 scans, each preceded by
one 6-unit sleep, and then ends: its complete schedule is literally twenty
copies of [sleep 6, scan] and nothing more. -/
theorem periodic_check_exactly_twenty_scans :
    periodic_check = (List.replicate 20 [PCStep.sleep 6, PCStep.scan]).flatten ∧
    periodic_check.count PCStep.scan = 20 ∧
    periodic_check.length = 40 := by
  refine ⟨?_, ?_, ?_⟩ <;> decide

/-- C2 (counterexample): at room "R", participant "P", track "T" the
destination path the code builds is "livekit/R/P-T.ogg", not the claimed
"R/P-T.ogg". -/
theorem egress_filepath_not_bare_template :
    ¬ ((build_track_egress
        { AWS_S3_BUCKET := "b", AWS_REGION := "r", AWS_ACCESS_KEY_ID := "k",
          AWS_SECRET_ACCESS_KEY := "x" } "R" "P" "T").file.filepath
      = "R/P-T.ogg") := by
  decide

/-- C2 (amended): every egress request carries the room name, the track id,
and the destination path `livekit/<room>/<participant-identity>-<track-id>.ogg`. -/
theorem egress_filepath_template (env : Env) (room identity sid : String) :
    (build_track_egress env room identity sid).room_name = room ∧
    (build_track_egress env room identity sid).track_id = sid ∧
    (build_track_egress env room identity sid).file.filepath =
      "livekit/" ++ room ++ "/" ++ identity ++ "-" ++ sid ++ ".ogg" :=
  ⟨rfl, rfl, rfl⟩

/-- C8: the getForecast tool returns the same fixed string for every
location. -/
theorem getForecast_constant (location location' : String) :
    getForecast location = "cold with a temperature of 30 degrees." ∧
    getForecast location = getForecast location' :=
  ⟨rfl, rfl⟩

/-- C9: getCurrentWeather returns a value only when the response status is a
success (2xx); any error status (4xx/5xx) makes it raise to its caller; and
on a success status it returns exactly the parse of the body. -/
theorem getCurrentWeather_errors_propagate {J : Type}
    (get : String → HttpResponse) (parse : String → Except String J)
    (location : String) :
    (∀ v : J, getCurrentWeather get parse location = Except.ok v →
        (get (weatherUrl location)).is_success = true) ∧
    (400 ≤ (get (weatherUrl location)).status_code →
        ∃ e, getCurrentWeather get parse location = Except.error e) ∧
    ((get (weatherUrl location)).is_success = true →
        getCurrentWeather get parse location =
          parse (get (weatherUrl location)).body) := by
  by_cases hs : (get (weatherUrl location)).is_success = true
  · have hr : raise_for_status (get (weatherUrl location)) =
        Except.ok (get (weatherUrl location)) := by
      simp [raise_for_status, hs]
    refine ⟨fun v _ => hs, ?_, fun _ => by simp [getCurrentWeather, hr]⟩
    intro h400
    exfalso
    simp only [HttpResponse.is_success, decide_eq_true_eq] at hs
    omega
  · have hr : raise_for_status (get (weatherUrl location)) =
        Except.error ("HTTPStatusError: " ++
          toString (get (weatherUrl location)).status_code) := by
      simp [raise_for_status, hs]
    refine ⟨?_, ?_, fun h => absurd h hs⟩
    · intro v hv
      exfalso
      simp [getCurrentWeather, hr] at hv
    · intro _
      exact ⟨"HTTPStatusError: " ++ toString (get (weatherUrl location)).status_code,
        by simp [getCurrentWeather, hr]⟩

/-- Witness for C9: a 404 response makes getCurrentWeather raise. -/
theorem getCurrentWeather_errors_propagate_witness :
    ∃ e, getCurrentWeather (fun _ => { status_code := 404, body := "nope" })
        (fun b => Except.ok b) "Paris" = Except.error e :=
  (getCurrentWeather_errors_propagate
    (fun _ => { status_code := 404, body := "nope" })
    (fun b => Except.ok b) "Paris").2.1 (by decide)

end Agent

namespace MeetingLink

/-- C10: the join-URL script builds, for every pair of environment inputs, a
token whose identity is exactly "human-user" and whose grant permits joining
exactly the room "local-room", and prints the fixed URL prefix with that
token appended; no input changes the identity or the room. -/
theorem join_url_token_fixed (to_jwt : AccessToken → String)
    (api_key api_secret room : String) :
    (human_token api_key api_secret).identity = some "human-user" ∧
    (human_token api_key api_secret).grants =
      some { room_join := true, room := "local-room" } ∧
    (VideoGrants.permitsJoin { room_join := true, room := "local-room" } room ↔
      room = "local-room") ∧
    meet_url to_jwt api_key api_secret =
      "https://meet.livekit.io/custom?liveKitUrl=http://localhost:7880&token=" ++
        to_jwt (human_token api_key api_secret) := by
  refine ⟨rfl, rfl, ?_, rfl⟩
  constructor
  · rintro ⟨_, h⟩
    exact h.symm
  · rintro rfl
    exact ⟨rfl, rfl⟩

/-- Witness for C10 at concrete environment inputs. -/
theorem join_url_token_fixed_witness :
    (human_token "key" "sec").identity = some "human-user" ∧
    (human_token "key" "sec").grants =
      some { room_join := true, room := "local-room" } :=
  ⟨(join_url_token_fixed (fun _ => "tok") "key" "sec" "local-room").1,
   (join_url_token_fixed (fun _ => "tok") "key" "sec" "local-room").2.1⟩

end MeetingLink
